import Mathlib

/-!
Verification of the route-sequencing core of `caminhoes.py`.

The embedding below mirrors the per-truck loop of the script (lines 82-119):
splitting the rows into the morning (`manha`) and daytime (`diurno`) groups,
the two TSP phases, the trailing-depot strip, the hand-off location, the
rotation of the second cycle to the stop nearest the hand-off, and the final
concatenation.

Modelling conventions:
* Numeric cell values (latitudes, longitudes) are stored as rationals — every
  floating-point literal is an exact rational — while all geometry
  (`haversine_distance` and everything derived from it) is carried out in `ℝ`.
* The external `ortools` call inside `solve_tsp` is abstracted by an
  `Option (List ℕ)` argument: `some route` stands for a returned solution
  (already extracted by the `while` loop of the script), `none` for the
  solver failing, in which case the script falls back to `list(range(size))`.
* Partial operations of Python (list indexing, `min` of an empty list) are
  modelled with `List.getD` defaults; the claims that depend on them carry
  hypotheses that keep the defaults unreachable.  The one indexing failure a
  claim is about — `rows[0]` on an empty group — is modelled with `Option`
  in `processTruck`.
-/

namespace Caminhoes

/-- One record of the per-truck dataframe group (`grp.to_dict('records')`).
Only the fields the sequencing core reads are kept; `motorista` and
`nomeFantasia` stand in for the opaque payload. -/
structure Row where
  motorista : String
  nomeFantasia : String
  turno : String
  lat : ℚ
  lon : ℚ
  casaLat : ℚ
  casaLon : ℚ
deriving DecidableEq, Repr

/-- Default row used as the `List.getD` fallback where Python indexing would
raise; every claim that touches it carries bounds hypotheses that keep it
unreachable. -/
def junkRow : Row := ⟨"", "", "", 0, 0, 0, 0⟩

/-- `math.radians`. -/
noncomputable def radians (d : ℝ) : ℝ := d * Real.pi / 180

/-- The intermediate value `a` of `haversine_distance` (line 12 of the
script): `sin(dlat/2)**2 + cos(lat1)*cos(lat2)*sin(dlon/2)**2`. -/
noncomputable def hav_arg (c1 c2 : ℝ × ℝ) : ℝ :=
  Real.sin ((radians c2.1 - radians c1.1) / 2) ^ 2 +
    Real.cos (radians c1.1) * Real.cos (radians c2.1) *
      Real.sin ((radians c2.2 - radians c1.2) / 2) ^ 2

/-- `haversine_distance` (lines 7-13): `R * 2 * asin(sqrt(a))` with
`R = 6371`. -/
noncomputable def haversine_distance (c1 c2 : ℝ × ℝ) : ℝ :=
  6371 * 2 * Real.arcsin (Real.sqrt (hav_arg c1 c2))

/-- Clamp to `[0, 1]`.  Used only by `haversine_distance_clamped`, the
variant the spec asks for. -/
noncomputable def clamp01 (x : ℝ) : ℝ := min 1 (max 0 x)

/-- Variant of `haversine_distance` following the spec wording "clamp the
square-root argument to [0,1] before taking the arcsine".  The script itself
does not clamp; the two are proved pointwise equal over `ℝ`. -/
noncomputable def haversine_distance_clamped (c1 c2 : ℝ × ℝ) : ℝ :=
  6371 * 2 * Real.arcsin (Real.sqrt (clamp01 (hav_arg c1 c2)))

/-- `build_distance_matrix` (lines 16-17). -/
noncomputable def build_distance_matrix (coords : List (ℝ × ℝ)) : List (List ℝ) :=
  coords.map (fun c1 => coords.map (fun c2 => haversine_distance c1 c2))

/-- `solve_tsp` (lines 20-46).  The whole `ortools` interaction — building the
routing model, solving, and walking the solution with the `while` loop — is
abstracted by `sol`: `some route` is the extracted route of a successful
solve, `none` a failed solve, in which case the script returns
`list(range(size))` (line 46) with `size = len(distance_matrix)`. -/
def solve_tsp (sol : Option (List ℕ)) (distance_matrix : List (List ℝ)) : List ℕ :=
  match sol with
  | some route => route
  | none => List.range distance_matrix.length

/-- The trailing-return strip applied to both solver routes
(`if routeN and routeN[-1]==0: routeN = routeN[:-1]`, lines 97-98, 108-109). -/
def stripReturn (route : List ℕ) : List ℕ :=
  match route.getLast? with
  | some 0 => route.dropLast
  | _ => route

/-- Whitespace test used by `pyStrip` (the characters Python `str.strip`
removes from the ASCII labels of this dataset). -/
def isSpaceChar (c : Char) : Bool :=
  c == ' ' || c == '\t' || c == '\n' || c == '\r'

/-- Python `str.strip()`: drop leading and trailing whitespace. -/
def pyStrip (s : String) : String :=
  String.mk (((s.data.dropWhile isSpaceChar).reverse.dropWhile isSpaceChar).reverse)

/-- Python `str.upper()` on the ASCII labels of this dataset. -/
def pyUpper (s : String) : String :=
  String.mk (s.data.map Char.toUpper)

/-- The morning test of line 87: `r.get('TURNO RECEBIMENTO','').strip().upper()
== 'MANHA'`. -/
def isManha (r : Row) : Bool := pyUpper (pyStrip r.turno) == "MANHA"

/-- `manha` (line 87): the rows whose normalized shift label is `MANHA`. -/
def manha (rows : List Row) : List Row := rows.filter isManha

/-- `diurno` (line 88): `[r for r in rows if r not in manha]` — membership is
full-record equality. -/
def diurno (rows : List Row) : List Row :=
  rows.filter (fun r => !(decide (r ∈ manha rows)))

/-- The stop coordinate `(r['LATITUDE'], r['LONGITUDE'])`. -/
def rowCoord (r : Row) : ℚ × ℚ := (r.lat, r.lon)

/-- `depot` (line 84): `(rows[0]['LATITUDE CASA'], rows[0]['LONGITUDE CASA'])`.
Python raises `IndexError` on an empty group; `processTruck` models that, the
`(0, 0)` default here is unreachable from it. -/
def depot (rows : List Row) : ℚ × ℚ :=
  match rows with
  | [] => (0, 0)
  | r :: _ => (r.casaLat, r.casaLon)

/-- Coordinate pairs are shipped to the real-valued geometry by casting. -/
noncomputable def toR (c : ℚ × ℚ) : ℝ × ℝ := ((c.1 : ℝ), (c.2 : ℝ))

/-- `haversine_distance` applied to two stored (rational) coordinates. -/
noncomputable def hdist (a b : ℚ × ℚ) : ℝ := haversine_distance (toR a) (toR b)

/-- `coords_m` (line 94): `[depot] + [(r['LATITUDE'], r['LONGITUDE']) for r in
manha]`. -/
def coords_m (rows : List Row) : List (ℚ × ℚ) :=
  depot rows :: (manha rows).map rowCoord

/-- `dm` (line 95): the Phase-A distance matrix. -/
noncomputable def dm (rows : List Row) : List (List ℝ) :=
  build_distance_matrix ((coords_m rows).map toR)

/-- `route1` as returned by `solve_tsp` (line 96). -/
noncomputable def route1 (rows : List Row) (sol1 : Option (List ℕ)) : List ℕ :=
  solve_tsp sol1 (dm rows)

/-- `route1` after the trailing-return strip (lines 97-98). -/
noncomputable def route1s (rows : List Row) (sol1 : Option (List ℕ)) : List ℕ :=
  stripReturn (route1 rows sol1)

/-- `ordered_manha` (lines 91, 99): `[manha[i-1] for i in route1 if i>0]`,
and `[]` when `manha` is empty (the `if manha:` guard). -/
noncomputable def ordered_manha (rows : List Row) (sol1 : Option (List ℕ)) : List Row :=
  if manha rows = [] then []
  else ((route1s rows sol1).filter (fun i => decide (0 < i))).map
    (fun i => (manha rows).getD (i - 1) junkRow)

/-- `last_loc` (lines 92, 100): the depot, overwritten by
`coords_m[route1[-1]]` when `manha` is non-empty. -/
noncomputable def last_loc (rows : List Row) (sol1 : Option (List ℕ)) : ℚ × ℚ :=
  if manha rows = [] then depot rows
  else (coords_m rows).getD ((route1s rows sol1).getLastD 0) (depot rows)

/-- `coords_d` (line 105): `[last_loc] + [(r['LATITUDE'], r['LONGITUDE']) for
r in diurno]`. -/
noncomputable def coords_d (rows : List Row) (sol1 : Option (List ℕ)) : List (ℚ × ℚ) :=
  last_loc rows sol1 :: (diurno rows).map rowCoord

/-- `dd` (line 106): the Phase-B distance matrix. -/
noncomputable def dd (rows : List Row) (sol1 : Option (List ℕ)) : List (List ℝ) :=
  build_distance_matrix ((coords_d rows sol1).map toR)

/-- `route2` as returned by `solve_tsp` (line 107). -/
noncomputable def route2 (rows : List Row) (sol1 sol2 : Option (List ℕ)) : List ℕ :=
  solve_tsp sol2 (dd rows sol1)

/-- `route2` after the trailing-return strip (lines 108-109). -/
noncomputable def route2s (rows : List Row) (sol1 sol2 : Option (List ℕ)) : List ℕ :=
  stripReturn (route2 rows sol1 sol2)

/-- `cycle` (line 111): `[i for i in route2 if i>0]`. -/
noncomputable def cycle (rows : List Row) (sol1 sol2 : Option (List ℕ)) : List ℕ :=
  (route2s rows sol1 sol2).filter (fun i => decide (0 < i))

/-- Python `min` on a list of reals (`min(distances)`, line 114); the `0`
for the empty list stands for the `ValueError` Python would raise, and is
unreachable under the non-empty-cycle hypotheses of the claims. -/
noncomputable def listMin : List ℝ → ℝ
  | [] => 0
  | d :: ds => ds.foldl min d

/-- Python `list.index` (`distances.index(...)`, line 114): the first
position holding the value. -/
noncomputable def pyIndex (l : List ℝ) (v : ℝ) : ℕ :=
  l.findIdx (fun d => decide (d = v))

/-- `distances` (line 113): `[haversine_distance(last_loc, coords_d[i]) for i
in cycle]`. -/
noncomputable def distances (rows : List Row) (sol1 sol2 : Option (List ℕ)) : List ℝ :=
  (cycle rows sol1 sol2).map
    (fun i => hdist (last_loc rows sol1) ((coords_d rows sol1).getD i (0, 0)))

/-- `nearest_pos` (line 114): `distances.index(min(distances))`. -/
noncomputable def nearest_pos (rows : List Row) (sol1 sol2 : Option (List ℕ)) : ℕ :=
  pyIndex (distances rows sol1 sol2) (listMin (distances rows sol1 sol2))

/-- `rotated` (line 115): `cycle[nearest_pos:] + cycle[:nearest_pos]`. -/
noncomputable def rotated (rows : List Row) (sol1 sol2 : Option (List ℕ)) : List ℕ :=
  (cycle rows sol1 sol2).drop (nearest_pos rows sol1 sol2) ++
    (cycle rows sol1 sol2).take (nearest_pos rows sol1 sol2)

/-- `ordered_diurno` (lines 103, 116): `[diurno[i-1] for i in rotated]`, and
`[]` when `diurno` is empty (the `if diurno:` guard). -/
noncomputable def ordered_diurno (rows : List Row) (sol1 sol2 : Option (List ℕ)) : List Row :=
  if diurno rows = [] then []
  else (rotated rows sol1 sol2).map (fun i => (diurno rows).getD (i - 1) junkRow)

/-- `ordered` (line 119): `ordered_manha + ordered_diurno`. -/
noncomputable def ordered (rows : List Row) (sol1 sol2 : Option (List ℕ)) : List Row :=
  ordered_manha rows sol1 ++ ordered_diurno rows sol1 sol2

/-- The whole per-truck body viewed as a function of the group rows: `none`
models the `IndexError` that `rows[0]` (line 84) raises on an empty group,
otherwise the final `ordered` list is produced. -/
noncomputable def processTruck (rows : List Row) (sol1 sol2 : Option (List ℕ)) :
    Option (List Row) :=
  match rows with
  | [] => none
  | _ :: _ => some (ordered rows sol1 sol2)

/-- Concrete morning row used by witnesses. -/
def rowM : Row := ⟨"T1", "CLIENTE A", "MANHA", 1, 2, 0, 0⟩

/-- Concrete daytime row used by witnesses. -/
def rowD : Row := ⟨"T1", "CLIENTE B", "DIURNO", 3, 4, 0, 0⟩

/-- Witness group with one morning and one daytime stop. -/
def wRows : List Row := [rowM, rowD]

/-- Witness group with a single daytime stop. -/
def wRowsD : List Row := [rowD]

/-- Witness group with a single morning stop. -/
def wRowsM : List Row := [rowM]

/-! ### List helper lemmas -/

theorem getD_map_lt {α β : Type} (f : α → β) (l : List α) (i : ℕ) (d : β) (d2 : α)
    (h : i < l.length) : (l.map f).getD i d = f (l.getD i d2) := by
  simp [List.getD_eq_getElem?_getD, List.getElem?_map, List.getElem?_eq_getElem h]

theorem range_map_getD {α : Type} (l : List α) (j : α) :
    (List.range l.length).map (fun i => l.getD i j) = l := by
  induction l with
  | nil => simp
  | cons a t ih =>
    rw [List.length_cons, List.range_succ_eq_map, List.map_cons, List.map_map]
    have h : ((fun i => (a :: t).getD i j) ∘ Nat.succ) = fun i => t.getD i j := by
      funext i
      simp
    rw [h, ih]
    simp

theorem shift_map_getD {α : Type} (l : List α) (j : α) :
    ((List.range l.length).map (fun i => i + 1)).map (fun i => l.getD (i - 1) j) = l := by
  rw [List.map_map]
  have h : ((fun i => l.getD (i - 1) j) ∘ fun i => i + 1) = fun i => l.getD i j := by
    funext i
    simp
  rw [h, range_map_getD]

theorem foldl_min_le_init (ds : List ℝ) (a : ℝ) : ds.foldl min a ≤ a := by
  induction ds generalizing a with
  | nil => simp
  | cons d t ih => exact le_trans (ih (min a d)) (min_le_left a d)

theorem foldl_min_le_mem (ds : List ℝ) (a x : ℝ) (hx : x ∈ ds) : ds.foldl min a ≤ x := by
  induction ds generalizing a with
  | nil => cases hx
  | cons d t ih =>
    rcases List.mem_cons.1 hx with rfl | hx2
    · exact le_trans (foldl_min_le_init t (min a x)) (min_le_right a x)
    · exact ih (min a d) hx2

theorem foldl_min_mem (ds : List ℝ) (a : ℝ) : ds.foldl min a = a ∨ ds.foldl min a ∈ ds := by
  induction ds generalizing a with
  | nil => exact Or.inl rfl
  | cons d t ih =>
    rcases ih (min a d) with h | h
    · rcases min_choice a d with h2 | h2
      · exact Or.inl (by rw [List.foldl_cons, h, h2])
      · exact Or.inr (by rw [List.foldl_cons, h, h2]; exact List.mem_cons_self d t)
    · exact Or.inr (List.mem_cons_of_mem d (by rw [List.foldl_cons]; exact h))

theorem listMin_mem (l : List ℝ) (h : l ≠ []) : listMin l ∈ l := by
  match l with
  | d :: ds =>
    rcases foldl_min_mem ds d with h2 | h2
    · exact List.mem_cons.2 (Or.inl (by rw [listMin, h2]))
    · exact List.mem_cons_of_mem d (by rw [listMin]; exact h2)

theorem listMin_le (l : List ℝ) (x : ℝ) (hx : x ∈ l) : listMin l ≤ x := by
  match l with
  | d :: ds =>
    rcases List.mem_cons.1 hx with rfl | h2
    · exact foldl_min_le_init ds x
    · exact foldl_min_le_mem ds d x h2

theorem pyIndex_lt_length (l : List ℝ) (v : ℝ) (h : v ∈ l) : pyIndex l v < l.length :=
  List.findIdx_lt_length_of_exists ⟨v, h, by simp⟩

theorem getD_pyIndex (l : List ℝ) (v : ℝ) (h : v ∈ l) : l.getD (pyIndex l v) 0 = v := by
  have hlt : pyIndex l v < l.length := pyIndex_lt_length l v h
  have h2 := @List.findIdx_getElem ℝ (fun d => decide (d = v)) l hlt
  rw [List.getD_eq_getElem?_getD, List.getElem?_eq_getElem hlt]
  simpa using h2

theorem getD_lt_pyIndex_ne (l : List ℝ) (v : ℝ) (j : ℕ) (hj : j < pyIndex l v) :
    l.getD j 0 ≠ v := by
  have hjl : j < l.length :=
    lt_of_lt_of_le hj (List.findIdx_le_length (fun d => decide (d = v)))
  have h2 := @List.not_of_lt_findIdx ℝ (fun d => decide (d = v)) l j hj
  rw [List.getD_eq_getElem?_getD, List.getElem?_eq_getElem hjl]
  simpa using h2

/-! ### Partition helper lemmas -/

theorem mem_manha_iff (rows : List Row) (r : Row) (hr : r ∈ rows) :
    r ∈ manha rows ↔ isManha r = true := by
  simp [manha, List.mem_filter, hr]

theorem diurno_eq_filter (rows : List Row) :
    diurno rows = rows.filter (fun r => !(isManha r)) := by
  apply List.filter_congr
  intro r hr
  simp [mem_manha_iff rows r hr]

theorem manha_append_diurno (rows : List Row) :
    List.Perm (manha rows ++ diurno rows) rows := by
  rw [diurno_eq_filter]
  exact List.filter_append_perm isManha rows

theorem mem_manha_isManha (rows : List Row) (r : Row) (hr : r ∈ manha rows) :
    isManha r = true :=
  (List.mem_filter.1 hr).2

theorem mem_diurno_not_isManha (rows : List Row) (r : Row) (hr : r ∈ diurno rows) :
    isManha r = false := by
  rw [diurno_eq_filter] at hr
  simpa using (List.mem_filter.1 hr).2

/-! ### Geometry helper lemmas -/

theorem getD_oob {α : Type} (l : List α) (j : ℕ) (d : α) (h : l.length ≤ j) :
    l.getD j d = d := by
  rw [List.getD_eq_getElem?_getD, List.getElem?_eq_none h]
  rfl

theorem hav_arg_comm (a b : ℝ × ℝ) : hav_arg a b = hav_arg b a := by
  have h : ∀ x y : ℝ, Real.sin ((x - y) / 2) ^ 2 = Real.sin ((y - x) / 2) ^ 2 := by
    intro x y
    rw [show (x - y) / 2 = -((y - x) / 2) by ring, Real.sin_neg, neg_sq]
  unfold hav_arg
  rw [h (radians b.1) (radians a.1), h (radians b.2) (radians a.2),
    mul_comm (Real.cos (radians a.1)) (Real.cos (radians b.1))]

theorem hav_arg_self (a : ℝ × ℝ) : hav_arg a a = 0 := by
  unfold hav_arg
  simp

theorem haversine_comm (a b : ℝ × ℝ) :
    haversine_distance a b = haversine_distance b a := by
  unfold haversine_distance
  rw [hav_arg_comm]

theorem haversine_self (a : ℝ × ℝ) : haversine_distance a a = 0 := by
  unfold haversine_distance
  rw [hav_arg_self]
  simp

theorem bdm_entry (coords : List (ℝ × ℝ)) (i j : ℕ) (hi : i < coords.length)
    (hj : j < coords.length) :
    ((build_distance_matrix coords).getD i []).getD j 0
      = haversine_distance (coords.getD i (0, 0)) (coords.getD j (0, 0)) := by
  unfold build_distance_matrix
  rw [getD_map_lt _ coords i [] (0, 0) hi, getD_map_lt _ coords j 0 (0, 0) hj]

theorem bdm_row_oob (coords : List (ℝ × ℝ)) (i : ℕ) (hi : ¬i < coords.length) :
    (build_distance_matrix coords).getD i [] = [] := by
  unfold build_distance_matrix
  rw [List.getD_eq_getElem?_getD, List.getElem?_eq_none (by simpa using Nat.le_of_not_lt hi)]
  rfl

theorem bdm_row_length (coords : List (ℝ × ℝ)) (i : ℕ) (hi : i < coords.length) :
    ((build_distance_matrix coords).getD i []).length = coords.length := by
  unfold build_distance_matrix
  rw [getD_map_lt _ coords i [] (0, 0) hi, List.length_map]

theorem sin_sq_half_eq (θ : ℝ) : Real.sin θ ^ 2 = (1 - Real.cos (2 * θ)) / 2 := by
  have h1 := Real.cos_two_mul θ
  have h2 := Real.sin_sq_add_cos_sq θ
  linarith

theorem hav_arg_eq (c1 c2 : ℝ × ℝ) :
    hav_arg c1 c2 =
      (1 - (Real.cos (radians c1.1) * Real.cos (radians c2.1) *
        Real.cos (radians c2.2 - radians c1.2) +
        Real.sin (radians c1.1) * Real.sin (radians c2.1))) / 2 := by
  unfold hav_arg
  rw [sin_sq_half_eq ((radians c2.1 - radians c1.1) / 2),
    sin_sq_half_eq ((radians c2.2 - radians c1.2) / 2),
    show 2 * ((radians c2.1 - radians c1.1) / 2) = radians c2.1 - radians c1.1 by ring,
    show 2 * ((radians c2.2 - radians c1.2) / 2) = radians c2.2 - radians c1.2 by ring,
    Real.cos_sub]
  ring

theorem dot_bounds (c1 s1 c2 s2 D : ℝ) (h1 : s1 ^ 2 + c1 ^ 2 = 1)
    (h2 : s2 ^ 2 + c2 ^ 2 = 1) (hD1 : -1 ≤ D) (hD2 : D ≤ 1) :
    -1 ≤ c1 * c2 * D + s1 * s2 ∧ c1 * c2 * D + s1 * s2 ≤ 1 := by
  constructor
  · nlinarith [sq_nonneg (c1 + c2 * D), sq_nonneg (s1 + s2),
      mul_nonneg (mul_nonneg (sq_nonneg c2) (by linarith : (0:ℝ) ≤ 1 - D))
        (by linarith : (0:ℝ) ≤ 1 + D)]
  · nlinarith [sq_nonneg (c1 - c2 * D), sq_nonneg (s1 - s2),
      mul_nonneg (mul_nonneg (sq_nonneg c2) (by linarith : (0:ℝ) ≤ 1 - D))
        (by linarith : (0:ℝ) ≤ 1 + D)]

theorem hav_arg_bounds (a b : ℝ × ℝ) : 0 ≤ hav_arg a b ∧ hav_arg a b ≤ 1 := by
  rw [hav_arg_eq]
  have h1 := Real.sin_sq_add_cos_sq (radians a.1)
  have h2 := Real.sin_sq_add_cos_sq (radians b.1)
  have hD1 := Real.neg_one_le_cos (radians b.2 - radians a.2)
  have hD2 := Real.cos_le_one (radians b.2 - radians a.2)
  have hb := dot_bounds (Real.cos (radians a.1)) (Real.sin (radians a.1))
    (Real.cos (radians b.1)) (Real.sin (radians b.1))
    (Real.cos (radians b.2 - radians a.2)) h1 h2 hD1 hD2
  constructor
  · linarith [hb.2]
  · linarith [hb.1]

/-! ### Claim theorems -/

/-- C5 counterexample: sequencing an empty group does not return an empty
route — the script fails at the depot extraction `rows[0]` (line 84), which
`processTruck` models as `none`. -/
theorem processTruck_empty_counterexample : processTruck [] none none ≠ some [] := by
  decide

/-- C5 (amended): for a vehicle whose stop list is empty, the per-truck body
raises `IndexError` at the depot extraction `rows[0]` instead of returning an
empty route. -/
theorem processTruck_empty_fails :
    ∀ sol1 sol2 : Option (List ℕ), processTruck [] sol1 sol2 = none :=
  fun _ _ => rfl

/-- C6 counterexample: `build_distance_matrix` on the empty coordinate list
silently returns the empty matrix — there is no input validation and no
error. -/
theorem build_distance_matrix_empty_silent :
    build_distance_matrix [] = ([] : List (List ℝ)) := rfl

/-- C6 (amended): `build_distance_matrix` accepts every coordinate list,
including the empty one, and always returns an `n × n` matrix with
`n = coords.length` (so `0 × 0` for empty input, with no error raised). -/
theorem build_distance_matrix_dims : ∀ coords : List (ℝ × ℝ),
    (build_distance_matrix coords).length = coords.length
    ∧ (build_distance_matrix coords).map List.length
        = List.replicate coords.length coords.length := by
  intro coords
  constructor
  · unfold build_distance_matrix
    rw [List.length_map]
  · apply List.eq_replicate_iff.2
    constructor
    · unfold build_distance_matrix
      simp
    · intro x hx
      obtain ⟨row, hrow, rfl⟩ := List.mem_map.1 hx
      unfold build_distance_matrix at hrow
      obtain ⟨c, _, rfl⟩ := List.mem_map.1 hrow
      simp

/-- C9 counterexample: on the empty distance matrix the solver-failure path
of `solve_tsp` returns `list(range(0)) = []`, not `[0]` (and the `ortools`
model construction would abort on zero nodes before that); there is no
`n <= 1` guard in the code. -/
theorem solve_tsp_empty_matrix : solve_tsp none ([] : List (List ℝ)) ≠ [0] := by
  decide

/-- C9 (amended): `solve_tsp` has no explicit `n <= 1` guard; on the
solver-failure fallback it returns `list(range(n))`, which is `[]` for
`n = 0` and `[0]` for `n = 1`, while a returned solution is passed through
unchanged. -/
theorem solve_tsp_fallback_small :
    solve_tsp none ([] : List (List ℝ)) = []
    ∧ (∀ row : List ℝ, solve_tsp none [row] = [0])
    ∧ ∀ (r : List ℕ) (m : List (List ℝ)), solve_tsp (some r) m = r :=
  ⟨rfl, fun _ => rfl, fun _ _ => rfl⟩

/-- C7: `haversine_distance` is symmetric and vanishes on coincident points,
and every distance matrix built by `build_distance_matrix` is symmetric with
zero diagonal (entries read through `getD`, with out-of-range entries `0` on
both sides). -/
theorem haversine_symmetric_zero_diag : ∀ a b : ℝ × ℝ,
    haversine_distance a b = haversine_distance b a
    ∧ haversine_distance a a = 0
    ∧ ∀ (coords : List (ℝ × ℝ)) (i j : ℕ),
      ((build_distance_matrix coords).getD i []).getD j 0
        = ((build_distance_matrix coords).getD j []).getD i 0
      ∧ ((build_distance_matrix coords).getD i []).getD i 0 = 0 := by
  intro a b
  refine ⟨haversine_comm a b, haversine_self a, ?_⟩
  intro coords i j
  constructor
  · by_cases hi : i < coords.length <;> by_cases hj : j < coords.length
    · rw [bdm_entry coords i j hi hj, bdm_entry coords j i hj hi, haversine_comm]
    · rw [bdm_row_oob coords j hj,
        getD_oob _ j 0 (by rw [bdm_row_length coords i hi]; exact Nat.le_of_not_lt hj)]
      rfl
    · rw [bdm_row_oob coords i hi,
        getD_oob _ i 0 (by rw [bdm_row_length coords j hj]; exact Nat.le_of_not_lt hi)]
      rfl
    · rw [bdm_row_oob coords i hi, bdm_row_oob coords j hj]
      simp
  · by_cases hi : i < coords.length
    · rw [bdm_entry coords i i hi hi, haversine_self]
    · rw [bdm_row_oob coords i hi]
      rfl

/-- C8: over exact real arithmetic the haversine intermediate `a` always lies
in `[0, 1]`, the returned distance is non-negative (and in particular the
square root and arcsine are applied within their domains), and the clamped
variant the spec asks for agrees with the unclamped code everywhere, i.e.
the clamp is a no-op in real semantics. -/
theorem haversine_domain_safe : ∀ a b : ℝ × ℝ,
    0 ≤ hav_arg a b ∧ hav_arg a b ≤ 1 ∧ 0 ≤ haversine_distance a b
    ∧ haversine_distance_clamped a b = haversine_distance a b := by
  intro a b
  obtain ⟨h0, h1⟩ := hav_arg_bounds a b
  refine ⟨h0, h1, ?_, ?_⟩
  · unfold haversine_distance
    have harc := Real.arcsin_nonneg.2 (Real.sqrt_nonneg (hav_arg a b))
    have : (0:ℝ) ≤ 6371 * 2 := by norm_num
    exact mul_nonneg this harc
  · unfold haversine_distance_clamped haversine_distance clamp01
    rw [max_eq_right h0, min_eq_right h1]

/-- C10: entry `i` of row 0 of the Phase-B matrix `dd` equals the distance
recomputed at line 113, `haversine_distance(last_loc, coords_d[i])` — the
recomputation is redundant with the matrix already built over
`[last_loc] + remainder`. -/
theorem dd_row_zero_eq_recomputed :
    ∀ (rows : List Row) (sol1 : Option (List ℕ)) (i : ℕ),
      i < (coords_d rows sol1).length →
      ((dd rows sol1).getD 0 []).getD i 0
        = hdist (last_loc rows sol1) ((coords_d rows sol1).getD i (0, 0)) := by
  intro rows sol1 i hi
  have h0 : 0 < (coords_d rows sol1).length := by
    unfold coords_d
    simp
  unfold dd
  rw [bdm_entry ((coords_d rows sol1).map toR) 0 i
      (by rw [List.length_map]; exact h0) (by rw [List.length_map]; exact hi),
    getD_map_lt toR _ 0 (0, 0) (0, 0) h0, getD_map_lt toR _ i (0, 0) (0, 0) hi]
  have hz : (coords_d rows sol1).getD 0 (0, 0) = last_loc rows sol1 := by
    unfold coords_d
    rfl
  rw [hz]
  rfl

/-- Witness for C10: the single-stop daytime group, solver output absent, at
matrix index 0. -/
theorem dd_row_zero_eq_recomputed_witness :
    ((dd wRowsD none).getD 0 []).getD 0 0
      = hdist (last_loc wRowsD none) ((coords_d wRowsD none).getD 0 (0, 0)) :=
  dd_row_zero_eq_recomputed wRowsD none 0 (by decide)

/-- C3: when the Phase-B cycle is non-empty, `rotated` is the left rotation
of `cycle` by `nearest_pos`, hence preserves the relative cyclic order; it
starts at the cycle element whose recomputed haversine distance to the
hand-off location is minimal, and every cycle position strictly before
`nearest_pos` has distance strictly above the minimum (first-occurrence
tie-break). -/
theorem rotated_cycle_correct :
    ∀ (rows : List Row) (sol1 sol2 : Option (List ℕ)),
      cycle rows sol1 sol2 ≠ [] →
      nearest_pos rows sol1 sol2 < (cycle rows sol1 sol2).length
      ∧ rotated rows sol1 sol2
          = (cycle rows sol1 sol2).rotate (nearest_pos rows sol1 sol2)
      ∧ (rotated rows sol1 sol2).head?
          = some ((cycle rows sol1 sol2).getD (nearest_pos rows sol1 sol2) 0)
      ∧ (∀ i ∈ cycle rows sol1 sol2,
          hdist (last_loc rows sol1)
            ((coords_d rows sol1).getD
              ((cycle rows sol1 sol2).getD (nearest_pos rows sol1 sol2) 0) (0, 0))
            ≤ hdist (last_loc rows sol1) ((coords_d rows sol1).getD i (0, 0)))
      ∧ ∀ j < nearest_pos rows sol1 sol2,
          listMin (distances rows sol1 sol2) <
            hdist (last_loc rows sol1)
              ((coords_d rows sol1).getD ((cycle rows sol1 sol2).getD j 0) (0, 0)) := by
  intro rows sol1 sol2 hc
  have hD : distances rows sol1 sol2
      = (cycle rows sol1 sol2).map
          (fun i => hdist (last_loc rows sol1) ((coords_d rows sol1).getD i (0, 0))) := rfl
  have hDne : distances rows sol1 sol2 ≠ [] := by
    rw [hD]
    simpa using hc
  have hmem : listMin (distances rows sol1 sol2) ∈ distances rows sol1 sol2 :=
    listMin_mem _ hDne
  have hkD : nearest_pos rows sol1 sol2 < (distances rows sol1 sol2).length :=
    pyIndex_lt_length _ _ hmem
  have hkc : nearest_pos rows sol1 sol2 < (cycle rows sol1 sol2).length := by
    rw [hD, List.length_map] at hkD
    exact hkD
  have h1 : (distances rows sol1 sol2).getD (nearest_pos rows sol1 sol2) 0
      = listMin (distances rows sol1 sol2) := getD_pyIndex _ _ hmem
  have h2 : (distances rows sol1 sol2).getD (nearest_pos rows sol1 sol2) 0
      = hdist (last_loc rows sol1)
          ((coords_d rows sol1).getD
            ((cycle rows sol1 sol2).getD (nearest_pos rows sol1 sol2) 0) (0, 0)) := by
    rw [hD]
    exact getD_map_lt _ _ _ 0 0 hkc
  have hfk : hdist (last_loc rows sol1)
      ((coords_d rows sol1).getD
        ((cycle rows sol1 sol2).getD (nearest_pos rows sol1 sol2) 0) (0, 0))
      = listMin (distances rows sol1 sol2) := by
    rw [← h2, h1]
  refine ⟨hkc, ?_, ?_, ?_, ?_⟩
  · unfold rotated
    exact (List.rotate_eq_drop_append_take (le_of_lt hkc)).symm
  · unfold rotated
    rw [List.drop_eq_getElem_cons hkc, List.cons_append, List.head?_cons,
      List.getD_eq_getElem?_getD, List.getElem?_eq_getElem hkc]
    rfl
  · intro i hi
    rw [hfk]
    apply listMin_le
    rw [hD]
    exact List.mem_map_of_mem _ hi
  · intro j hj
    have hjD : j < (distances rows sol1 sol2).length := lt_of_lt_of_le hj
      (le_of_lt hkD)
    have hjc : j < (cycle rows sol1 sol2).length := by
      rw [hD, List.length_map] at hjD
      exact hjD
    have hne := getD_lt_pyIndex_ne (distances rows sol1 sol2)
      (listMin (distances rows sol1 sol2)) j hj
    have hle : listMin (distances rows sol1 sol2)
        ≤ (distances rows sol1 sol2).getD j 0 := by
      apply listMin_le
      rw [List.getD_eq_getElem?_getD, List.getElem?_eq_getElem hjD]
      exact List.getElem_mem hjD
    have heq : (distances rows sol1 sol2).getD j 0
        = hdist (last_loc rows sol1)
            ((coords_d rows sol1).getD ((cycle rows sol1 sol2).getD j 0) (0, 0)) := by
      rw [hD, getD_map_lt _ _ _ 0 0 hjc]
    rw [heq] at hle hne
    exact lt_of_le_of_ne hle (fun h => hne h.symm)

/-- Witness for C3: single daytime stop, Phase-B solver route `[0, 1]`, so
the cycle is `[1]` and non-empty. -/
theorem rotated_cycle_correct_witness :
    nearest_pos wRowsD none (some [0, 1]) < (cycle wRowsD none (some [0, 1])).length
    ∧ rotated wRowsD none (some [0, 1])
        = (cycle wRowsD none (some [0, 1])).rotate (nearest_pos wRowsD none (some [0, 1]))
    ∧ (rotated wRowsD none (some [0, 1])).head?
        = some ((cycle wRowsD none (some [0, 1])).getD (nearest_pos wRowsD none (some [0, 1])) 0)
    ∧ (∀ i ∈ cycle wRowsD none (some [0, 1]),
        hdist (last_loc wRowsD none)
          ((coords_d wRowsD none).getD
            ((cycle wRowsD none (some [0, 1])).getD (nearest_pos wRowsD none (some [0, 1])) 0)
            (0, 0))
          ≤ hdist (last_loc wRowsD none) ((coords_d wRowsD none).getD i (0, 0)))
    ∧ ∀ j < nearest_pos wRowsD none (some [0, 1]),
        listMin (distances wRowsD none (some [0, 1])) <
          hdist (last_loc wRowsD none)
            ((coords_d wRowsD none).getD
              ((cycle wRowsD none (some [0, 1])).getD j 0) (0, 0)) :=
  rotated_cycle_correct wRowsD none (some [0, 1]) (by decide)

/-- C1: whenever the two solver outputs are, after the trailing-return strip
and the positive-index filter, permutations of the expected stop index
ranges (which is what a successful TSP solve produces), the final `ordered`
list is a permutation of the group rows: every stop assigned to the vehicle
appears exactly once and no foreign stop appears. -/
theorem ordered_perm_rows :
    ∀ (rows : List Row) (sol1 sol2 : Option (List ℕ)),
      List.Perm ((route1s rows sol1).filter (fun i => decide (0 < i)))
        ((List.range (manha rows).length).map (fun i => i + 1)) →
      List.Perm (cycle rows sol1 sol2)
        ((List.range (diurno rows).length).map (fun i => i + 1)) →
      List.Perm (ordered rows sol1 sol2) rows := by
  intro rows sol1 sol2 h1 h2
  have hm : List.Perm (ordered_manha rows sol1) (manha rows) := by
    unfold ordered_manha
    by_cases hmm : manha rows = []
    · rw [if_pos hmm, hmm]
    · rw [if_neg hmm]
      have hp := List.Perm.map (fun i => (manha rows).getD (i - 1) junkRow) h1
      rw [shift_map_getD (manha rows) junkRow] at hp
      exact hp
  have hd : List.Perm (ordered_diurno rows sol1 sol2) (diurno rows) := by
    unfold ordered_diurno
    by_cases hdd : diurno rows = []
    · rw [if_pos hdd, hdd]
    · rw [if_neg hdd]
      have hrot : List.Perm (rotated rows sol1 sol2) (cycle rows sol1 sol2) := by
        unfold rotated
        exact List.perm_append_comm.trans (by rw [List.take_append_drop])
      have hp := List.Perm.map (fun i => (diurno rows).getD (i - 1) junkRow)
        (hrot.trans h2)
      rw [shift_map_getD (diurno rows) junkRow] at hp
      exact hp
  exact (hm.append hd).trans (manha_append_diurno rows)

/-- Witness for C1: one morning and one daytime stop, both solver routes the
closed tour `[0, 1, 0]`. -/
theorem ordered_perm_rows_witness :
    List.Perm (ordered wRows (some [0, 1, 0]) (some [0, 1, 0])) wRows :=
  ordered_perm_rows wRows (some [0, 1, 0]) (some [0, 1, 0]) (by decide) (by decide)

theorem mem_ordered_manha_isManha (rows : List Row) (sol1 : Option (List ℕ))
    (hb : ∀ a ∈ (route1s rows sol1).filter (fun i => decide (0 < i)),
      a - 1 < (manha rows).length) :
    ∀ r ∈ ordered_manha rows sol1, isManha r = true := by
  intro r hr
  unfold ordered_manha at hr
  by_cases hmm : manha rows = []
  · rw [if_pos hmm] at hr
    cases hr
  · rw [if_neg hmm] at hr
    obtain ⟨a, ha, rfl⟩ := List.mem_map.1 hr
    have hlt := hb a ha
    have hmem : (manha rows).getD (a - 1) junkRow ∈ manha rows := by
      rw [List.getD_eq_getElem?_getD, List.getElem?_eq_getElem hlt]
      exact List.getElem_mem hlt
    exact mem_manha_isManha rows _ hmem

theorem mem_ordered_diurno_not_isManha (rows : List Row) (sol1 sol2 : Option (List ℕ))
    (hb : ∀ a ∈ cycle rows sol1 sol2, a - 1 < (diurno rows).length) :
    ∀ r ∈ ordered_diurno rows sol1 sol2, isManha r = false := by
  intro r hr
  unfold ordered_diurno at hr
  by_cases hdd : diurno rows = []
  · rw [if_pos hdd] at hr
    cases hr
  · rw [if_neg hdd] at hr
    obtain ⟨a, ha, rfl⟩ := List.mem_map.1 hr
    have hac : a ∈ cycle rows sol1 sol2 := by
      unfold rotated at ha
      rcases List.mem_append.1 ha with h | h
      · exact List.mem_of_mem_drop h
      · exact List.mem_of_mem_take h
    have hlt := hb a hac
    have hmem : (diurno rows).getD (a - 1) junkRow ∈ diurno rows := by
      rw [List.getD_eq_getElem?_getD, List.getElem?_eq_getElem hlt]
      exact List.getElem_mem hlt
    exact mem_diurno_not_isManha rows _ hmem

/-- C2: in the final `ordered` list every stop whose normalized shift label
is `MANHA` comes before every stop whose label is not, provided the solver
outputs index only into the respective sub-lists (out-of-range reads are
`junkRow`, whose label is not `MANHA`). -/
theorem manha_precede_diurno :
    ∀ (rows : List Row) (sol1 sol2 : Option (List ℕ)) (i j : ℕ),
      (∀ a ∈ (route1s rows sol1).filter (fun i => decide (0 < i)),
        a - 1 < (manha rows).length) →
      (∀ a ∈ cycle rows sol1 sol2, a - 1 < (diurno rows).length) →
      isManha ((ordered rows sol1 sol2).getD i junkRow) = true →
      isManha ((ordered rows sol1 sol2).getD j junkRow) = false →
      i < j := by
  intro rows sol1 sol2 i j hb1 hb2 hti hfj
  have hA := mem_ordered_manha_isManha rows sol1 hb1
  have hB := mem_ordered_diurno_not_isManha rows sol1 sol2 hb2
  have hord : ordered rows sol1 sol2
      = ordered_manha rows sol1 ++ ordered_diurno rows sol1 sol2 := rfl
  have hjunk : isManha junkRow = false := rfl
  have hiA : i < (ordered_manha rows sol1).length := by
    by_contra hge
    have hge2 : (ordered_manha rows sol1).length ≤ i := Nat.le_of_not_lt hge
    rw [hord, List.getD_append_right _ _ _ _ hge2] at hti
    by_cases hib : i - (ordered_manha rows sol1).length
        < (ordered_diurno rows sol1 sol2).length
    · have hmem : (ordered_diurno rows sol1 sol2).getD
          (i - (ordered_manha rows sol1).length) junkRow
          ∈ ordered_diurno rows sol1 sol2 := by
        rw [List.getD_eq_getElem?_getD, List.getElem?_eq_getElem hib]
        exact List.getElem_mem hib
      rw [hB _ hmem] at hti
      cases hti
    · rw [getD_oob _ _ _ (Nat.le_of_not_lt hib), hjunk] at hti
      cases hti
  have hjA : (ordered_manha rows sol1).length ≤ j := by
    by_contra hlt
    have hjb : j < (ordered_manha rows sol1).length := Nat.lt_of_not_le hlt
    rw [hord, List.getD_append _ _ _ _ hjb] at hfj
    have hmem : (ordered_manha rows sol1).getD j junkRow ∈ ordered_manha rows sol1 := by
      rw [List.getD_eq_getElem?_getD, List.getElem?_eq_getElem hjb]
      exact List.getElem_mem hjb
    rw [hA _ hmem] at hfj
    cases hfj
  exact Nat.lt_of_lt_of_le hiA hjA

/-- Witness for C2: a single morning stop (so the daytime side is empty);
position 0 holds the morning stop and position 1 is past the end, read as
`junkRow`, which is not labelled `MANHA`. -/
theorem manha_precede_diurno_witness :
    isManha ((ordered wRowsM (some [0, 1, 0]) none).getD 0 junkRow) = true
    ∧ isManha ((ordered wRowsM (some [0, 1, 0]) none).getD 1 junkRow) = false
    ∧ (0:ℕ) < 1 :=
  ⟨by decide, by decide,
   manha_precede_diurno wRowsM (some [0, 1, 0]) none 0 1
     (by decide) (by decide) (by decide) (by decide)⟩

/-- C4: the hand-off location after Phase A is the depot when the priority
subset is empty, and otherwise — for any solver output that starts at the
depot index and is a permutation of `{0, ..., m}` after the strip — it is
exactly the coordinate of the last stop of `ordered_manha`. -/
theorem last_loc_spec :
    (∀ (rows : List Row) (sol1 : Option (List ℕ)),
      manha rows = [] → last_loc rows sol1 = depot rows)
    ∧ ∀ (rows : List Row) (sol1 : Option (List ℕ)),
        manha rows ≠ [] →
        (route1s rows sol1).head? = some 0 →
        List.Perm (route1s rows sol1) (List.range ((manha rows).length + 1)) →
        ∃ r, (ordered_manha rows sol1).getLast? = some r
          ∧ last_loc rows sol1 = rowCoord r := by
  constructor
  · intro rows sol1 hm
    unfold last_loc
    rw [if_pos hm]
  · intro rows sol1 hm hhead hperm
    obtain ⟨rest, hrest⟩ : ∃ rest, route1s rows sol1 = 0 :: rest := by
      cases hr : route1s rows sol1 with
      | nil => rw [hr] at hhead; cases hhead
      | cons a t =>
        rw [hr] at hhead
        simp only [List.head?_cons, Option.some.injEq] at hhead
        exact ⟨t, by rw [hhead]⟩
    have hnd : (route1s rows sol1).Nodup :=
      hperm.nodup_iff.2 (List.nodup_range _)
    have hlen : rest.length = (manha rows).length := by
      have h := hperm.length_eq
      rw [hrest] at h
      simpa using h
    have hrestne : rest ≠ [] := by
      intro h
      rw [h] at hlen
      exact hm (List.length_eq_zero.1 (by simpa using hlen.symm))
    have h0notin : (0 : ℕ) ∉ rest := by
      rw [hrest] at hnd
      exact (List.nodup_cons.1 hnd).1
    have hpos : ∀ a ∈ rest, 0 < a := by
      intro a ha
      cases Nat.eq_zero_or_pos a with
      | inl h => exact absurd (h ▸ ha) h0notin
      | inr h => exact h
    have hbound : ∀ a ∈ rest, a < (manha rows).length + 1 := by
      intro a ha
      have h1 : a ∈ route1s rows sol1 := by
        rw [hrest]
        exact List.mem_cons_of_mem _ ha
      exact List.mem_range.1 (hperm.subset h1)
    have htmem : rest.getLast hrestne ∈ rest := List.getLast_mem hrestne
    have htpos : 0 < rest.getLast hrestne := hpos _ htmem
    have htb : rest.getLast hrestne < (manha rows).length + 1 := hbound _ htmem
    have hfilter : (route1s rows sol1).filter (fun i => decide (0 < i)) = rest := by
      rw [hrest, List.filter_cons]
      simp only [Nat.lt_irrefl, decide_False, Bool.false_eq_true, if_false]
      exact List.filter_eq_self.2 (fun a ha => by simpa using hpos a ha)
    have hom : ordered_manha rows sol1
        = rest.map (fun i => (manha rows).getD (i - 1) junkRow) := by
      unfold ordered_manha
      rw [if_neg hm, hfilter]
    refine ⟨(manha rows).getD (rest.getLast hrestne - 1) junkRow, ?_, ?_⟩
    · rw [hom, List.getLast?_map, List.getLast?_eq_getLast rest hrestne]
      rfl
    · unfold last_loc
      rw [if_neg hm]
      have hlast : (route1s rows sol1).getLastD 0 = rest.getLast hrestne := by
        rw [hrest, List.getLastD_eq_getLast?,
          List.getLast?_eq_getLast (0 :: rest) (by simp),
          List.getLast_cons hrestne]
        rfl
      rw [hlast]
      unfold coords_m
      obtain ⟨s, hs⟩ : ∃ s, rest.getLast hrestne = s + 1 :=
        ⟨rest.getLast hrestne - 1, (Nat.succ_pred_eq_of_pos htpos).symm⟩
      have hsb : s < (manha rows).length := by omega
      rw [hs, List.getD_cons_succ, getD_map_lt rowCoord _ s _ junkRow hsb]
      congr 2

/-- Witness for C4: the empty-priority branch at the single daytime stop
group, and the main branch at the single morning stop group with the closed
solver tour `[0, 1, 0]`. -/
theorem last_loc_spec_witness :
    last_loc wRowsD none = depot wRowsD
    ∧ ∃ r, (ordered_manha wRowsM (some [0, 1, 0])).getLast? = some r
        ∧ last_loc wRowsM (some [0, 1, 0]) = rowCoord r :=
  ⟨last_loc_spec.1 wRowsD none (by decide),
   last_loc_spec.2 wRowsM (some [0, 1, 0]) (by decide) (by decide) (by decide)⟩

end Caminhoes
